import Mathlib

/-!
Shallow embedding of the candle-wasm sentence-embedding crate
(`src/embeddings/candle-wasm/src/lib.rs`).

Floating-point (`f32`/`f64`) arithmetic is modelled by exact arithmetic:
the pooling and batching layer is stated over an arbitrary
`LinearOrderedField` (instantiated at `ℚ` for concrete evaluation and at
`ℝ` inside the pipeline), and the normalizer / cosine similarity, which
need `sqrt`, are stated over `ℝ`.  The literals `1e-9` and `1e-12` become
the exact rationals `1/10^9` and `1/10^12`.  Rust panics (out-of-bounds
indexing) are modelled by `Option`/error values.
-/

namespace CandleWasm

/-- `HIDDEN_SIZE` constant for all-MiniLM-L6-v2 (line 45 of the source). -/
def HIDDEN_SIZE : Nat := 384

/-- `MAX_SEQUENCE_LENGTH` constant (line 46 of the source). -/
def MAX_SEQUENCE_LENGTH : Nat := 256

/-- The pooling strategy enum (lines 49-55). -/
inductive PoolingStrategy where
  | Mean
  | Cls
deriving DecidableEq, Repr

/-- The (only) device variant used by the engine. -/
inductive Device where
  | Cpu
deriving DecidableEq, Repr

section Vectors

variable {K : Type} [LinearOrderedField K]

/-- Elementwise vector addition (the tensor `sum` over the sequence
dimension is accumulated pairwise). -/
def vecAdd (a b : List K) : List K := List.zipWith (· + ·) a b

/-- Scaling a vector by a scalar: one row of `token_embeddings.mul(&mask)`
after the mask has been expanded along the hidden dimension. -/
def scaleVec (c : K) (v : List K) : List K := v.map (fun x => c * x)

/-- Sum of a list of `d`-dimensional vectors (the `masked.sum(1)` reduction
over the sequence dimension, lines 301-303). -/
def sumVecs (d : Nat) (l : List (List K)) : List K :=
  l.foldr vecAdd (List.replicate d 0)

/-- The epsilon `1e-9` used to clamp the mask sum (line 309). -/
def epsMask : K := 1 / 1000000000

/-- One row of `mean_pooling` (lines 278-316): multiply the token
embeddings by the (hidden-expanded) attention mask, sum over the sequence
dimension, and divide by the mask sum clamped to `[1e-9, ∞)`.  The
expanded mask sums to the same value `mask.sum` in every hidden column, so
the per-column divisor is `max mask.sum 1e-9`. -/
def meanPoolRow (d : Nat) (emb : List (List K)) (mask : List K) : List K :=
  let masked := List.zipWith scaleVec mask emb
  let summed := sumVecs d masked
  let maskSum := mask.sum
  summed.map (fun x => x / max maskSum epsMask)

/-- Modelled from the spec (§4.2): mean pooling described as "the
elementwise sum of token embeddings over positions where attention_mask
== 1, then divide by the count of such positions", with the divisor
clamped to a minimum of `1e-9`.  Used only to compare against
`meanPoolRow`, which is translated from the source. -/
def meanPoolRowSpec (d : Nat) (emb : List (List K)) (mask : List K) : List K :=
  let kept := ((mask.zip emb).filter (fun p => decide (p.1 = 1))).map Prod.snd
  let count : K := (kept.length : K)
  (sumVecs d kept).map (fun x => x / max count epsMask)

/-- Batch-level `mean_pooling`: row-independent application of
`meanPoolRow`. -/
def mean_pooling (d : Nat) (output : List (List (List K))) (mask : List (List K)) :
    List (List K) :=
  List.zipWith (fun e m => meanPoolRow d e m) output mask

/-- CLS pooling branch (lines 256-263): take position 0 of every row. -/
def clsPool (output : List (List (List K))) : List (List K) :=
  output.map (fun row => row.headD [])

/-- The pooling dispatch of `embed_internal` (lines 252-264). -/
def applyPooling (p : PoolingStrategy) (d : Nat) (output : List (List (List K)))
    (mask : List (List K)) : List (List K) :=
  match p with
  | .Mean => mean_pooling d output mask
  | .Cls => clsPool output

end Vectors

/-- Sum of squares of a vector (`embeddings.sqr().sum_keepdim(1)` per row,
and the `norm_a`/`norm_b` accumulators of `cosine_similarity`). -/
def sumSq (a : List ℝ) : ℝ := (a.map (fun x => x * x)).sum

/-- Dot product accumulator of `cosine_similarity` (lines 365-369). -/
def dotProd (a b : List ℝ) : ℝ := (List.zipWith (· * ·) a b).sum

/-- Euclidean norm of a vector. -/
noncomputable def norm2 (a : List ℝ) : ℝ := Real.sqrt (sumSq a)

/-- The epsilon `1e-12` used to clamp the L2 norm (line 327). -/
noncomputable def epsNorm : ℝ := 1 / 1000000000000

/-- One row of `l2_normalize` (lines 319-333): divide every component by
`max (sqrt (sum of squares)) 1e-12`. -/
noncomputable def l2_normalize (v : List ℝ) : List ℝ :=
  let norm := max (norm2 v) epsNorm
  v.map (fun x => x / norm)

open Classical in
/-- `cosine_similarity` (lines 356-376): `0.0` on length mismatch or empty
input, `0.0` when either sum of squares is zero, otherwise
`dot / (sqrt norm_a * sqrt norm_b)`. -/
noncomputable def cosine_similarity (a b : List ℝ) : ℝ :=
  if a.length ≠ b.length ∨ a = [] then 0
  else if sumSq a = 0 ∨ sumSq b = 0 then 0
  else dotProd a b / (Real.sqrt (sumSq a) * Real.sqrt (sumSq b))

/-- One tokenizer encoding: parallel lists of token ids, attention mask
values and type (segment) ids, as returned by `encode_batch`. -/
structure Encoding where
  ids : List Nat
  attention_mask : List Nat
  type_ids : List Nat
deriving DecidableEq, Repr

/-- `max_len` of a batch (lines 197-202):
`encodings.iter().map(|e| e.get_ids().len()).max().unwrap_or(0).min(MAX_SEQUENCE_LENGTH)`. -/
def batchMaxLen (encs : List Encoding) : Nat :=
  min ((encs.map (fun e => e.ids.length)).foldr max 0) MAX_SEQUENCE_LENGTH

/-- One iteration of the batch-building loop (lines 209-229): truncate to
`seq_len = min (ids.length) maxLen`, then right-pad with `0` to `maxLen`.
The loop indexes `mask[i]` and `types[i]` for every `i < seq_len`; when
either list is shorter than `seq_len` the Rust code panics
(index out of bounds), modelled by `none`.  Entries of `mask`/`types`
beyond `seq_len` are never read. -/
def buildRow (maxLen : Nat) (e : Encoding) : Option (List Nat × List Nat × List Nat) :=
  let seqLen := min e.ids.length maxLen
  if seqLen ≤ e.attention_mask.length ∧ seqLen ≤ e.type_ids.length then
    some (e.ids.take seqLen ++ List.replicate (maxLen - seqLen) 0,
          e.attention_mask.take seqLen ++ List.replicate (maxLen - seqLen) 0,
          e.type_ids.take seqLen ++ List.replicate (maxLen - seqLen) 0)
  else
    none

/-- The batch-building loop over all encodings: the first panic (modelled
`none`) aborts the whole call. -/
def buildRows (maxLen : Nat) : List Encoding → Option (List (List Nat × List Nat × List Nat))
  | [] => some []
  | e :: rest =>
    match buildRow maxLen e, buildRows maxLen rest with
    | some r, some rs => some (r :: rs)
    | _, _ => none

/-- The whole batch-building phase of `embed_internal` (lines 196-229). -/
def buildBatch (encs : List Encoding) : Option (List (List Nat × List Nat × List Nat)) :=
  buildRows (batchMaxLen encs) encs

/-- The error values `embed_internal`, `embed`, `embed_batch` and `load`
surface to the caller (the source returns `JsValue` strings; the tag
records which error site produced the value). -/
inductive EmbedError where
  | notLoaded (component : String)
  | loadFailed (stage : String)
  | tokenizationFailed (msg : String)
  | indexPanic
  | inferenceFailed (msg : String)
  | noEmbedding
deriving DecidableEq, Repr

/-- The `EmbeddingEngine` struct (lines 58-64).  The model and tokenizer
are external collaborators, so their types are parameters. -/
structure EmbeddingEngine (M T : Type) where
  model : Option M
  tokenizer : Option T
  device : Device
  pooling : PoolingStrategy

/-- `EmbeddingEngine::new` (lines 70-77): not loaded, CPU device, mean
pooling. -/
def EmbeddingEngine.new {M T : Type} : EmbeddingEngine M T :=
  { model := none, tokenizer := none, device := Device.Cpu,
    pooling := PoolingStrategy.Mean }

/-- `is_ready` (lines 120-122). -/
def is_ready {M T : Type} (e : EmbeddingEngine M T) : Bool :=
  e.model.isSome && e.tokenizer.isSome

/-- `load` (lines 89-116).  The four fallible collaborator steps — config
parse, safetensors load, `BertModel::load`, `Tokenizer::from_bytes` — are
passed in as their outcomes on the given byte inputs (`C` = parsed config,
`W` = loaded tensor map).  On any failure the function returns early with
an error and the engine fields are untouched; only after all four succeed
are `model` and `tokenizer` assigned. -/
def load {M T C W : Type} (parse_config : Option C) (load_buffer : Option W)
    (bert_load : C → W → Option M) (tok_from_bytes : Option T)
    (e : EmbeddingEngine M T) : EmbeddingEngine M T × Except EmbedError Unit :=
  match parse_config with
  | none => (e, .error (.loadFailed "config"))
  | some cfg =>
    match load_buffer with
    | none => (e, .error (.loadFailed "safetensors"))
    | some w =>
      match bert_load cfg w with
      | none => (e, .error (.loadFailed "model"))
      | some m =>
        match tok_from_bytes with
        | none => (e, .error (.loadFailed "tokenizer"))
        | some t =>
          ({ e with model := some m, tokenizer := some t }, .ok ())

/-- `embed_internal` (lines 176-275): guard on model and tokenizer, call
the tokenizer collaborator, short-circuit on an empty encoding list, build
the padded batch, call the model collaborator, pool by the configured
strategy, and L2-normalize every row.  The collaborators `encode_batch`
(tokenizer) and `forward` (model, taking input ids, type ids and
attention mask) are parameters. -/
noncomputable def embed_internal {M T : Type}
    (encode_batch : T → List String → Except String (List Encoding))
    (forward : M → List (List Nat) → List (List Nat) → List (List Nat) →
      Except String (List (List (List ℝ))))
    (e : EmbeddingEngine M T) (texts : List String) :
    Except EmbedError (List (List ℝ)) :=
  match e.model with
  | none => .error (.notLoaded "Model")
  | some m =>
    match e.tokenizer with
    | none => .error (.notLoaded "Tokenizer")
    | some tok =>
      match encode_batch tok texts with
      | .error msg => .error (.tokenizationFailed msg)
      | .ok encodings =>
        if encodings.length = 0 then .ok []
        else
          match buildBatch encodings with
          | none => .error .indexPanic
          | some rows =>
            let input_ids := rows.map (fun r => r.1)
            let attention_mask := rows.map (fun r => r.2.1)
            let token_type_ids := rows.map (fun r => r.2.2)
            match forward m input_ids token_type_ids attention_mask with
            | .error msg => .error (.inferenceFailed msg)
            | .ok output =>
              let maskR : List (List ℝ) :=
                attention_mask.map (fun r => r.map (fun n => (n : ℝ)))
              let pooled := applyPooling e.pooling HIDDEN_SIZE output maskR
              .ok (pooled.map l2_normalize)

/-- `embed` (lines 128-139): single text through `embed_internal`, taking
the first result. -/
noncomputable def embed {M T : Type}
    (encode_batch : T → List String → Except String (List Encoding))
    (forward : M → List (List Nat) → List (List Nat) → List (List Nat) →
      Except String (List (List (List ℝ))))
    (e : EmbeddingEngine M T) (text : String) : Except EmbedError (List ℝ) :=
  match embed_internal encode_batch forward e [text] with
  | .error err => .error err
  | .ok embeddings =>
    match embeddings with
    | [] => .error .noEmbedding
    | first :: _ => .ok first

/-- `embed_batch` (lines 146-173): the host-boundary string conversion is
excluded; after it, an empty batch returns `Ok([])` before
`embed_internal` is reached. -/
noncomputable def embed_batch {M T : Type}
    (encode_batch : T → List String → Except String (List Encoding))
    (forward : M → List (List Nat) → List (List Nat) → List (List Nat) →
      Except String (List (List (List ℝ))))
    (e : EmbeddingEngine M T) (texts : List String) :
    Except EmbedError (List (List ℝ)) :=
  match texts with
  | [] => .ok []
  | _ :: _ => embed_internal encode_batch forward e texts

/-- Engine states reachable through the public surface: `new` (also
`default`, line 348-352) and `load`.  The remaining public methods
(`is_ready`, `embed`, `embed_batch`, `dimension`, `max_sequence_length`)
take `&self` and cannot modify the state. -/
inductive Reachable {M T : Type} : EmbeddingEngine M T → Prop where
  | new : Reachable EmbeddingEngine.new
  | load {C W : Type} (parse_config : Option C) (load_buffer : Option W)
      (bert_load : C → W → Option M) (tok_from_bytes : Option T)
      {e : EmbeddingEngine M T} : Reachable e →
      Reachable (CandleWasm.load parse_config load_buffer bert_load tok_from_bytes e).1

/-! ### Helper lemmas -/

theorem sumSq_nonneg (a : List ℝ) : 0 ≤ sumSq a := by
  refine List.sum_nonneg ?_
  intro x hx
  obtain ⟨y, _, rfl⟩ := List.mem_map.mp hx
  exact mul_self_nonneg y

theorem norm2_eq_zero_iff (a : List ℝ) : norm2 a = 0 ↔ sumSq a = 0 := by
  unfold norm2
  constructor
  · intro h
    have h' : sumSq a ≤ 0 := Real.sqrt_eq_zero'.mp h
    exact le_antisymm h' (sumSq_nonneg a)
  · intro h
    rw [h, Real.sqrt_zero]

/-! ### C5: cosine similarity contract -/

/-- Claim C5: `cosine_similarity` returns exactly `0` when the inputs have
unequal lengths, when either is empty, or when either has zero Euclidean
norm; otherwise it returns the dot product divided by the product of the
two Euclidean norms.  (In this exact-arithmetic model the result is always
a well-defined real number, so no NaN can arise.) -/
theorem cosine_similarity_contract (a b : List ℝ) :
    (a.length ≠ b.length → cosine_similarity a b = 0) ∧
    (a = [] ∨ b = [] → cosine_similarity a b = 0) ∧
    (norm2 a = 0 ∨ norm2 b = 0 → cosine_similarity a b = 0) ∧
    (a.length = b.length → a ≠ [] → norm2 a ≠ 0 → norm2 b ≠ 0 →
      cosine_similarity a b = dotProd a b / (norm2 a * norm2 b)) := by
  refine ⟨?_, ?_, ?_, ?_⟩
  · intro h
    unfold cosine_similarity
    rw [if_pos (Or.inl h)]
  · intro h
    unfold cosine_similarity
    rcases h with h | h
    · rw [if_pos (Or.inr h)]
    · by_cases ha : a = []
      · rw [if_pos (Or.inr ha)]
      · have : a.length ≠ b.length := by
          rw [h]
          simpa using ha
        rw [if_pos (Or.inl this)]
  · intro h
    have h' : sumSq a = 0 ∨ sumSq b = 0 := by
      rcases h with h | h
      · exact Or.inl ((norm2_eq_zero_iff a).mp h)
      · exact Or.inr ((norm2_eq_zero_iff b).mp h)
    unfold cosine_similarity
    by_cases hc : a.length ≠ b.length ∨ a = []
    · rw [if_pos hc]
    · rw [if_neg hc, if_pos h']
  · intro hlen hne ha hb
    have ha' : sumSq a ≠ 0 := fun h => ha ((norm2_eq_zero_iff a).mpr h)
    have hb' : sumSq b ≠ 0 := fun h => hb ((norm2_eq_zero_iff b).mpr h)
    unfold cosine_similarity
    rw [if_neg (by push_neg; exact ⟨hlen, hne⟩), if_neg (by push_neg; exact ⟨ha', hb'⟩)]
    rfl

/-- Witness for C5: concrete inputs exercising the mismatch case, the
zero-norm case and the general formula. -/
theorem cosine_similarity_contract_witness :
    cosine_similarity [1, 0] [1] = 0 ∧
    cosine_similarity [0, 0] [1, 2] = 0 ∧
    cosine_similarity [3, 0] [3, 0] =
      dotProd [3, 0] [3, 0] / (norm2 [3, 0] * norm2 [3, 0]) := by
  have hz : norm2 [0, 0] = 0 := by
    rw [norm2_eq_zero_iff]
    norm_num [sumSq]
  have hnz : norm2 [(3 : ℝ), 0] ≠ 0 := by
    rw [Ne, norm2_eq_zero_iff]
    norm_num [sumSq]
  exact ⟨(cosine_similarity_contract [1, 0] [1]).1 (by norm_num),
    (cosine_similarity_contract [0, 0] [1, 2]).2.2.1 (Or.inl hz),
    (cosine_similarity_contract [3, 0] [3, 0]).2.2.2 rfl (by simp) hnz hnz⟩

/-! ### C8: empty-batch short-circuit -/

/-- Claim C8: `embed_batch` applied to an empty list returns the empty
list, for every engine state and every pair of collaborator functions —
including collaborators that fail on every input — so neither the
tokenizer nor the model collaborator is consulted. -/
theorem embed_batch_empty_short_circuit {M T : Type}
    (encode_batch : T → List String → Except String (List Encoding))
    (forward : M → List (List Nat) → List (List Nat) → List (List Nat) →
      Except String (List (List (List ℝ))))
    (e : EmbeddingEngine M T) :
    embed_batch encode_batch forward e [] = Except.ok [] := rfl

/-! ### Engine lifecycle -/

/-- Case analysis on `load`: either some step failed and the engine is
returned untouched together with a `loadFailed` error, or all four steps
succeeded and both fields are assigned. -/
theorem load_cases {M T C W : Type} (pc : Option C) (lb : Option W)
    (bl : C → W → Option M) (tk : Option T) (e : EmbeddingEngine M T) :
    ((load pc lb bl tk e).1 = e ∧
      ∃ s, (load pc lb bl tk e).2 = Except.error (EmbedError.loadFailed s)) ∨
    (∃ m t, (load pc lb bl tk e).1 = { e with model := some m, tokenizer := some t } ∧
      (load pc lb bl tk e).2 = Except.ok ()) := by
  unfold load
  rcases pc with _ | cfg
  · exact Or.inl ⟨rfl, "config", rfl⟩
  · rcases lb with _ | w
    · exact Or.inl ⟨rfl, "safetensors", rfl⟩
    · rcases hbl : bl cfg w with _ | m
      · refine Or.inl ⟨?_, "model", ?_⟩ <;> simp [hbl]
      · rcases tk with _ | t
        · refine Or.inl ⟨?_, "tokenizer", ?_⟩ <;> simp [hbl]
        · exact Or.inr ⟨m, t, by simp [hbl], by simp [hbl]⟩

/-- Claim C10: `load` is atomic — a failing load leaves the fields
unchanged, a successful load sets both; along the public surface the two
fields are always both set or both unset, and `is_ready` is `true`
exactly when both are loaded. -/
theorem load_atomic {M T C W : Type} (pc : Option C) (lb : Option W)
    (bl : C → W → Option M) (tk : Option T) (e : EmbeddingEngine M T) :
    (∀ err, (load pc lb bl tk e).2 = Except.error err → (load pc lb bl tk e).1 = e) ∧
    ((load pc lb bl tk e).2 = Except.ok () →
      (load pc lb bl tk e).1.model.isSome = true ∧
      (load pc lb bl tk e).1.tokenizer.isSome = true) ∧
    (∀ e' : EmbeddingEngine M T, Reachable e' →
      (e'.model.isSome = true ↔ e'.tokenizer.isSome = true)) ∧
    (∀ e' : EmbeddingEngine M T, is_ready e' = true ↔
      (e'.model.isSome = true ∧ e'.tokenizer.isSome = true)) := by
  refine ⟨?_, ?_, ?_, ?_⟩
  · intro err herr
    rcases load_cases pc lb bl tk e with ⟨h1, _⟩ | ⟨m, t, h1, h2⟩
    · exact h1
    · rw [h2] at herr
      cases herr
  · intro hok
    rcases load_cases pc lb bl tk e with ⟨h1, s, h2⟩ | ⟨m, t, h1, h2⟩
    · rw [h2] at hok
      cases hok
    · rw [h1]
      simp
  · intro e' hr
    induction hr with
    | new => simp [EmbeddingEngine.new]
    | load pc' lb' bl' tk' hr' ih =>
      rcases load_cases pc' lb' bl' tk' _ with ⟨h1, _⟩ | ⟨m, t, h1, _⟩
      · rw [h1]
        exact ih
      · rw [h1]
        simp
  · intro e'
    simp [is_ready, Bool.and_eq_true]

/-- Witness for C10: a failing load (no config) leaves a fresh engine
unchanged; a fully successful load sets both fields; the both-or-neither
invariant and the `is_ready` characterization hold at the fresh engine. -/
theorem load_atomic_witness :
    (load (none : Option Unit) (none : Option Unit) (fun _ _ => (none : Option Unit))
        (none : Option Unit) (@EmbeddingEngine.new Unit Unit)).1 =
      @EmbeddingEngine.new Unit Unit ∧
    ((load (some ()) (some ()) (fun _ _ => some ()) (some ())
        (@EmbeddingEngine.new Unit Unit)).1.model.isSome = true ∧
      (load (some ()) (some ()) (fun _ _ => some ()) (some ())
        (@EmbeddingEngine.new Unit Unit)).1.tokenizer.isSome = true) ∧
    ((@EmbeddingEngine.new Unit Unit).model.isSome = true ↔
      (@EmbeddingEngine.new Unit Unit).tokenizer.isSome = true) ∧
    (is_ready (@EmbeddingEngine.new Unit Unit) = true ↔
      ((@EmbeddingEngine.new Unit Unit).model.isSome = true ∧
        (@EmbeddingEngine.new Unit Unit).tokenizer.isSome = true)) :=
  ⟨(load_atomic none none (fun _ _ => none) none _).1 (EmbedError.loadFailed "config") rfl,
   (load_atomic (some ()) (some ()) (fun _ _ => some ()) (some ()) _).2.1 rfl,
   (load_atomic (some ()) (some ()) (fun _ _ => some ()) (some ())
      (@EmbeddingEngine.new Unit Unit)).2.2.1 _ Reachable.new,
   (load_atomic (some ()) (some ()) (fun _ _ => some ()) (some ())
      (@EmbeddingEngine.new Unit Unit)).2.2.2 _⟩

/-- Claim C9: every engine reachable through the public surface has mean
pooling, so the pooling dispatch of `embed_internal` always takes the
mean-pooling branch (the CLS branch is unreachable). -/
theorem pooling_always_mean {M T : Type} (e : EmbeddingEngine M T) (h : Reachable e) :
    e.pooling = PoolingStrategy.Mean ∧
    ∀ (output : List (List (List ℝ))) (mask : List (List ℝ)),
      applyPooling e.pooling HIDDEN_SIZE output mask =
        mean_pooling HIDDEN_SIZE output mask := by
  have hp : e.pooling = PoolingStrategy.Mean := by
    induction h with
    | new => rfl
    | load pc lb bl tk hr ih =>
      rcases load_cases pc lb bl tk _ with ⟨h1, _⟩ | ⟨m, t, h1, _⟩
      · rw [h1]
        exact ih
      · rw [h1]
        exact ih
  exact ⟨hp, fun output mask => by rw [hp, applyPooling]⟩

/-- Witness for C9: the freshly constructed engine is reachable and its
pooling dispatch is mean pooling on a concrete batch. -/
theorem pooling_always_mean_witness :
    (@EmbeddingEngine.new Unit Unit).pooling = PoolingStrategy.Mean ∧
    applyPooling (@EmbeddingEngine.new Unit Unit).pooling HIDDEN_SIZE
        [[[(1 : ℝ), 2]]] [[1]] =
      mean_pooling HIDDEN_SIZE [[[(1 : ℝ), 2]]] [[1]] :=
  ⟨(pooling_always_mean _ Reachable.new).1,
   (pooling_always_mean _ Reachable.new).2 [[[1, 2]]] [[1]]⟩

/-- Counterexample for C7 as stated: `embed_batch` called with an empty
text list on a freshly constructed (hence uninitialized) engine returns
`Ok([])`, not a NotLoaded error — the empty-batch short-circuit runs
before the loaded-state guard. -/
theorem embed_batch_unloaded_empty_ok :
    is_ready (@EmbeddingEngine.new Unit Unit) = false ∧
    embed_batch (fun _ _ => Except.error "tokenizer unavailable")
        (fun _ _ _ _ => Except.error "model unavailable")
        (@EmbeddingEngine.new Unit Unit) [] = Except.ok [] :=
  ⟨rfl, rfl⟩

/-- Claim C7 (amended): every `embed` call, and every `embed_batch` call
with a nonempty text list, made while the engine is uninitialized fails
with a NotLoaded-style error, and a freshly constructed engine reports
`is_ready = false`.  (`embed_batch` on an empty list instead
short-circuits to `Ok([])`.) -/
theorem embed_unloaded_not_loaded {M T : Type}
    (encode_batch : T → List String → Except String (List Encoding))
    (forward : M → List (List Nat) → List (List Nat) → List (List Nat) →
      Except String (List (List (List ℝ))))
    (e : EmbeddingEngine M T) (h : e.model = none ∨ e.tokenizer = none)
    (text : String) (texts : List String) (hne : texts ≠ []) :
    (∃ c, embed encode_batch forward e text = Except.error (EmbedError.notLoaded c)) ∧
    (∃ c, embed_batch encode_batch forward e texts =
      Except.error (EmbedError.notLoaded c)) ∧
    is_ready (@EmbeddingEngine.new M T) = false := by
  have key : ∀ ts, ∃ c, embed_internal encode_batch forward e ts =
      Except.error (EmbedError.notLoaded c) := by
    intro ts
    rcases hmod : e.model with _ | m
    · exact ⟨"Model", by simp [embed_internal, hmod]⟩
    · rcases h with h | h
      · rw [hmod] at h
        cases h
      · exact ⟨"Tokenizer", by simp [embed_internal, hmod, h]⟩
  refine ⟨?_, ?_, rfl⟩
  · obtain ⟨c, hc⟩ := key [text]
    exact ⟨c, by simp [embed, hc]⟩
  · rcases texts with _ | ⟨t, ts⟩
    · exact absurd rfl hne
    · obtain ⟨c, hc⟩ := key (t :: ts)
      exact ⟨c, by simp [embed_batch, hc]⟩

/-- Witness for C7 (amended): a fresh engine with failing collaborators,
one text, and a nonempty batch. -/
theorem embed_unloaded_not_loaded_witness :
    (∃ c, embed (fun _ _ => Except.error "tokenizer unavailable")
        (fun _ _ _ _ => Except.error "model unavailable")
        (@EmbeddingEngine.new Unit Unit) "hello" =
      Except.error (EmbedError.notLoaded c)) ∧
    (∃ c, embed_batch (fun _ _ => Except.error "tokenizer unavailable")
        (fun _ _ _ _ => Except.error "model unavailable")
        (@EmbeddingEngine.new Unit Unit) ["hello"] =
      Except.error (EmbedError.notLoaded c)) ∧
    is_ready (@EmbeddingEngine.new Unit Unit) = false :=
  embed_unloaded_not_loaded _ _ _ (Or.inl rfl) "hello" ["hello"] (by simp)

/-! ### Batch builder -/

theorem foldr_max_mem (l : List Nat) (h : l ≠ []) : l.foldr max 0 ∈ l := by
  induction l with
  | nil => exact absurd rfl h
  | cons x xs ih =>
    rcases xs with _ | ⟨y, ys⟩
    · simp
    · rcases max_choice x ((y :: ys).foldr max 0) with hc | hc

      · simp only [List.foldr_cons] at *
        rw [hc]
        exact List.mem_cons_self x _
      · simp only [List.foldr_cons] at *
        rw [hc]
        exact List.mem_cons_of_mem x (ih (by simp))

theorem le_foldr_max (l : List Nat) : ∀ x ∈ l, x ≤ l.foldr max 0 := by
  induction l with
  | nil => intro x hx; cases hx
  | cons y ys ih =>
    intro x hx
    rcases List.mem_cons.mp hx with rfl | hx
    · exact le_max_left _ _
    · exact le_trans (ih x hx) (le_max_right _ _)

theorem buildRows_eq_map_of_some {maxLen : Nat}
    {f : Encoding → List Nat × List Nat × List Nat} {l : List Encoding}
    (h : ∀ e ∈ l, buildRow maxLen e = some (f e)) :
    buildRows maxLen l = some (l.map f) := by
  induction l with
  | nil => rfl
  | cons a as ih =>
    have ha := h a (List.mem_cons_self a as)
    have has := ih (fun b hb => h b (List.mem_cons_of_mem a hb))
    simp [buildRows, ha, has]

/-- Claim C2: for a non-empty batch of internally-consistent encodings,
the common width is `min (longest ids length) MAX_SEQUENCE_LENGTH`, the
builder succeeds (no error), each row keeps exactly the first
`min (len, max_len)` tokens of each of the three grids in order, and
every row of every grid is right-padded with `0` to exactly `max_len`. -/
theorem buildBatch_spec (encs : List Encoding) (hne : encs ≠ [])
    (hm : ∀ e ∈ encs, e.attention_mask.length = e.ids.length)
    (ht : ∀ e ∈ encs, e.type_ids.length = e.ids.length) :
    ((encs.map (fun x => x.ids.length)).foldr max 0 ∈
        encs.map (fun x => x.ids.length) ∧
      ∀ e ∈ encs, e.ids.length ≤ (encs.map (fun x => x.ids.length)).foldr max 0) ∧
    batchMaxLen encs =
      min ((encs.map (fun x => x.ids.length)).foldr max 0) MAX_SEQUENCE_LENGTH ∧
    buildBatch encs = some (encs.map (fun e =>
      (e.ids.take (min e.ids.length (batchMaxLen encs)) ++
          List.replicate (batchMaxLen encs - min e.ids.length (batchMaxLen encs)) 0,
        e.attention_mask.take (min e.ids.length (batchMaxLen encs)) ++
          List.replicate (batchMaxLen encs - min e.ids.length (batchMaxLen encs)) 0,
        e.type_ids.take (min e.ids.length (batchMaxLen encs)) ++
          List.replicate (batchMaxLen encs - min e.ids.length (batchMaxLen encs)) 0))) ∧
    ∀ r ∈ (buildBatch encs).getD [],
      r.1.length = batchMaxLen encs ∧ r.2.1.length = batchMaxLen encs ∧
        r.2.2.length = batchMaxLen encs := by
  have hbb : buildBatch encs = some (encs.map (fun e =>
      (e.ids.take (min e.ids.length (batchMaxLen encs)) ++
          List.replicate (batchMaxLen encs - min e.ids.length (batchMaxLen encs)) 0,
        e.attention_mask.take (min e.ids.length (batchMaxLen encs)) ++
          List.replicate (batchMaxLen encs - min e.ids.length (batchMaxLen encs)) 0,
        e.type_ids.take (min e.ids.length (batchMaxLen encs)) ++
          List.replicate (batchMaxLen encs - min e.ids.length (batchMaxLen encs)) 0))) := by
    apply buildRows_eq_map_of_some
    intro e he
    unfold buildRow
    rw [if_pos]
    exact ⟨by rw [hm e he]; exact min_le_left _ _,
      by rw [ht e he]; exact min_le_left _ _⟩
  refine ⟨⟨foldr_max_mem _ (by simpa using hne), ?_⟩, rfl, hbb, ?_⟩
  · intro e he
    exact le_foldr_max _ _ (List.mem_map_of_mem _ he)
  · intro r hr
    rw [hbb] at hr
    simp only [Option.getD_some, List.mem_map] at hr
    obtain ⟨e, he, rfl⟩ := hr
    have h1 : min e.ids.length (batchMaxLen encs) ≤ e.ids.length := min_le_left _ _
    have h2 : min e.ids.length (batchMaxLen encs) ≤ batchMaxLen encs := min_le_right _ _
    have hm' := hm e he
    have ht' := ht e he
    refine ⟨?_, ?_, ?_⟩ <;>
      simp only [List.length_append, List.length_take, List.length_replicate] <;>
      omega

/-- Witness for C2: a concrete two-encoding batch, one row shorter than
the other, evaluated to its padded grids. -/
theorem buildBatch_spec_witness :
    buildBatch [⟨[1, 2], [1, 1], [0, 0]⟩, ⟨[3], [1], [0]⟩] =
      some [([1, 2], [1, 1], [0, 0]), ([3, 0], [1, 0], [0, 0])] := by
  have h := buildBatch_spec [⟨[1, 2], [1, 1], [0, 0]⟩, ⟨[3], [1], [0]⟩]
    (by simp) (by decide) (by decide)
  rw [h.2.2.1]
  decide

/-- Counterexample for C6 as stated: an encoding whose attention-mask list
is longer than its ids list (internally inconsistent) does not make the
builder signal any error — the call succeeds and the extra mask entry is
silently dropped. -/
theorem shape_mismatch_not_signalled :
    (Encoding.mk [5] [1, 1] [0]).attention_mask.length ≠
      (Encoding.mk [5] [1, 1] [0]).ids.length ∧
    buildBatch [⟨[5], [1, 1], [0]⟩] = some [([5], [1], [0])] := by
  constructor
  · decide
  · decide

/-- Claim C6 (amended): the batch builder performs no length-consistency
check between the three grids.  A row fails — with an index-out-of-bounds
panic, modelled as `none`, never a ShapeMismatch error value — exactly
when the mask or type-id list is shorter than the truncated ids length;
otherwise the row succeeds, silently ignoring any excess mask or type-id
entries. -/
theorem buildRow_no_shape_check (maxLen : Nat) (e : Encoding) :
    (buildRow maxLen e = none ↔
      (e.attention_mask.length < min e.ids.length maxLen ∨
        e.type_ids.length < min e.ids.length maxLen)) ∧
    (∀ r, buildRow maxLen e = some r ↔
      ((min e.ids.length maxLen ≤ e.attention_mask.length ∧
          min e.ids.length maxLen ≤ e.type_ids.length) ∧
        r = (e.ids.take (min e.ids.length maxLen) ++
              List.replicate (maxLen - min e.ids.length maxLen) 0,
            e.attention_mask.take (min e.ids.length maxLen) ++
              List.replicate (maxLen - min e.ids.length maxLen) 0,
            e.type_ids.take (min e.ids.length maxLen) ++
              List.replicate (maxLen - min e.ids.length maxLen) 0))) := by
  constructor
  · simp only [buildRow]
    split_ifs with hcond
    · simp only [reduceCtorEq, false_iff]
      omega
    · simp only [true_iff]
      omega
  · intro r
    simp only [buildRow]
    split_ifs with hcond
    · simp only [Option.some.injEq]
      constructor
      · intro hr
        exact ⟨hcond, hr.symm⟩
      · intro hr
        exact hr.2.symm
    · simp only [reduceCtorEq, false_iff]
      intro hr
      exact hcond hr.1

/-- Witness for C6 (amended): a too-short mask row panics (`none`); a row
whose mask has an excess entry succeeds with the excess dropped. -/
theorem buildRow_no_shape_check_witness :
    buildRow 2 ⟨[7, 8, 9], [1], [0, 0, 0]⟩ = none ∧
    buildRow 2 ⟨[7], [1, 1], [0]⟩ = some ([7, 0], [1, 0], [0, 0]) :=
  ⟨(buildRow_no_shape_check 2 ⟨[7, 8, 9], [1], [0, 0, 0]⟩).1.mpr (by decide),
   ((buildRow_no_shape_check 2 ⟨[7], [1, 1], [0]⟩).2 ([7, 0], [1, 0], [0, 0])).mpr
     ⟨by decide, by decide⟩⟩

/-! ### Mean pooling -/

theorem scaleVec_zero {K : Type} [LinearOrderedField K] (v : List K) :
    scaleVec (0 : K) v = List.replicate v.length 0 := by
  induction v with
  | nil => rfl
  | cons x xs ih => simp_all [scaleVec, List.replicate]

theorem scaleVec_one {K : Type} [LinearOrderedField K] (v : List K) :
    scaleVec (1 : K) v = v := by
  induction v with
  | nil => rfl
  | cons x xs ih => simp_all [scaleVec]

theorem vecAdd_scaleVec_zero {K : Type} [LinearOrderedField K] :
    ∀ (v w : List K), w.length ≤ v.length → vecAdd (scaleVec 0 v) w = w := by
  intro v w
  induction w generalizing v with
  | nil => intro _; simp [vecAdd]
  | cons y ys ih =>
    intro h
    cases v with
    | nil => simp at h
    | cons x xs =>
      simp only [scaleVec, List.map_cons, vecAdd, List.zipWith_cons_cons]
      rw [zero_mul, zero_add]
      have := ih xs (by simpa using h)
      simp only [scaleVec, vecAdd] at this
      rw [this]

theorem sumVecs_length_le {K : Type} [LinearOrderedField K] (d : Nat)
    (l : List (List K)) : (sumVecs d l).length ≤ d := by
  induction l with
  | nil => simp [sumVecs]
  | cons a as ih =>
    simp only [sumVecs, List.foldr_cons, vecAdd, List.length_zipWith] at *
    omega

theorem sumVecs_masked {K : Type} [LinearOrderedField K] {d : Nat} :
    ∀ (mask : List K) (emb : List (List K)),
      (∀ m ∈ mask, m = 0 ∨ m = 1) → mask.length = emb.length →
      (∀ v ∈ emb, v.length = d) →
      sumVecs d (List.zipWith scaleVec mask emb) =
        sumVecs d (((mask.zip emb).filter (fun p => decide (p.1 = 1))).map Prod.snd) := by
  intro mask
  induction mask with
  | nil =>
    intro emb _ hlen _
    cases emb with
    | nil => rfl
    | cons v vs => simp at hlen
  | cons m ms ih =>
    intro emb hb hlen hrow
    cases emb with
    | nil => simp at hlen
    | cons v vs =>
      have hlen' : ms.length = vs.length := by simpa using hlen
      have hb' : ∀ x ∈ ms, x = (0 : K) ∨ x = 1 :=
        fun x hx => hb x (List.mem_cons_of_mem _ hx)
      have hrow' : ∀ w ∈ vs, w.length = d :=
        fun w hw => hrow w (List.mem_cons_of_mem _ hw)
      have ihm := ih vs hb' hlen' hrow'
      rcases hb m (List.mem_cons_self _ _) with rfl | rfl
      · have hfil : (((0 : K) :: ms).zip (v :: vs)).filter (fun p => decide (p.1 = 1)) =
            (ms.zip vs).filter (fun p => decide (p.1 = 1)) := by
          simp [List.zip_cons_cons, List.filter_cons, zero_ne_one]
        rw [List.zipWith_cons_cons, hfil]
        show vecAdd (scaleVec 0 v) (sumVecs d (List.zipWith scaleVec ms vs)) = _
        rw [vecAdd_scaleVec_zero v _ (le_trans (sumVecs_length_le d _) (hrow v (List.mem_cons_self _ _)).ge)]
        exact ihm
      · have hfil : (((1 : K) :: ms).zip (v :: vs)).filter (fun p => decide (p.1 = 1)) =
            (1, v) :: (ms.zip vs).filter (fun p => decide (p.1 = 1)) := by
          simp [List.zip_cons_cons, List.filter_cons]
        rw [List.zipWith_cons_cons, hfil]
        show vecAdd (scaleVec 1 v) (sumVecs d (List.zipWith scaleVec ms vs)) =
          vecAdd v (sumVecs d (((ms.zip vs).filter (fun p => decide (p.1 = 1))).map Prod.snd))
        rw [scaleVec_one, ihm]

theorem sum_eq_filter_length {K : Type} [LinearOrderedField K] :
    ∀ (mask : List K) (emb : List (List K)),
      (∀ m ∈ mask, m = 0 ∨ m = 1) → mask.length = emb.length →
      mask.sum =
        (((((mask.zip emb).filter (fun p => decide (p.1 = 1))).map Prod.snd).length : Nat) : K) := by
  intro mask
  induction mask with
  | nil =>
    intro emb _ hlen
    cases emb with
    | nil => simp
    | cons v vs => simp at hlen
  | cons m ms ih =>
    intro emb hb hlen
    cases emb with
    | nil => simp at hlen
    | cons v vs =>
      have hlen' : ms.length = vs.length := by simpa using hlen
      have hb' : ∀ x ∈ ms, x = (0 : K) ∨ x = 1 :=
        fun x hx => hb x (List.mem_cons_of_mem _ hx)
      have ihm := ih vs hb' hlen'
      rcases hb m (List.mem_cons_self _ _) with rfl | rfl
      · simp [List.zip_cons_cons, List.filter_cons, zero_ne_one, ihm]
      · simp [List.zip_cons_cons, List.filter_cons, List.sum_cons, ihm]
        ring

theorem binary_sum_zero_all_zero {K : Type} [LinearOrderedField K] :
    ∀ (mask : List K), (∀ m ∈ mask, m = 0 ∨ m = 1) → mask.sum = 0 →
      ∀ m ∈ mask, m = 0 := by
  intro mask
  induction mask with
  | nil => intro _ _ m hm; cases hm
  | cons m ms ih =>
    intro hb hsum x hx
    have hnn : 0 ≤ ms.sum := by
      refine List.sum_nonneg ?_
      intro y hy
      rcases hb y (List.mem_cons_of_mem _ hy) with rfl | rfl
      · exact le_refl 0
      · exact zero_le_one
    rw [List.sum_cons] at hsum
    have hm0 : m = 0 := by
      rcases hb m (List.mem_cons_self _ _) with rfl | rfl
      · rfl
      · linarith
    rcases List.mem_cons.mp hx with rfl | hx
    · exact hm0
    · exact ih (fun y hy => hb y (List.mem_cons_of_mem _ hy))
        (by rw [hm0] at hsum; linarith) x hx

theorem sumVecs_all_zero {K : Type} [LinearOrderedField K] {d : Nat} :
    ∀ (mask : List K) (emb : List (List K)), (∀ m ∈ mask, m = 0) →
      mask.length = emb.length → (∀ v ∈ emb, v.length = d) →
      sumVecs d (List.zipWith scaleVec mask emb) = List.replicate d 0 := by
  intro mask
  induction mask with
  | nil =>
    intro emb _ hlen _
    cases emb with
    | nil => rfl
    | cons v vs => simp at hlen
  | cons m ms ih =>
    intro emb hz hlen hrow
    cases emb with
    | nil => simp at hlen
    | cons v vs =>
      rw [List.zipWith_cons_cons]
      show vecAdd (scaleVec m v) (sumVecs d (List.zipWith scaleVec ms vs)) = _
      rw [hz m (List.mem_cons_self _ _),
        ih vs (fun y hy => hz y (List.mem_cons_of_mem _ hy)) (by simpa using hlen)
          (fun w hw => hrow w (List.mem_cons_of_mem _ hw)),
        vecAdd_scaleVec_zero v _ (by simp [hrow v (List.mem_cons_self _ _)])]

/-- Claim C1: `mean_pooling`, per row, equals the spec description — sum
of the token embeddings at mask-1 positions divided by the count of such
positions, the divisor clamped to at least `1e-9` — and an all-zero mask
row yields the zero vector (the defined degenerate output; in this exact
model the result has no NaN or infinite components by construction). -/
theorem mean_pooling_matches_spec {K : Type} [LinearOrderedField K] (d : Nat)
    (emb : List (List K)) (mask : List K)
    (hb : ∀ m ∈ mask, m = 0 ∨ m = 1)
    (hlen : mask.length = emb.length)
    (hrow : ∀ v ∈ emb, v.length = d) :
    meanPoolRow d emb mask = meanPoolRowSpec d emb mask ∧
    (mask.sum = 0 → meanPoolRow d emb mask = List.replicate d 0) := by
  constructor
  · simp only [meanPoolRow, meanPoolRowSpec]
    rw [sumVecs_masked mask emb hb hlen hrow, sum_eq_filter_length mask emb hb hlen]
  · intro hzero
    have hall : ∀ m ∈ mask, m = (0 : K) := binary_sum_zero_all_zero mask hb hzero
    simp only [meanPoolRow]
    rw [sumVecs_all_zero mask emb hall hlen hrow, hzero, List.map_replicate, zero_div]

/-- Witness for C1: a concrete `2`-dimensional batch row with mask
`[1, 0, 1]` (evaluating to the mean of the first and third token), and a
degenerate all-zero mask row evaluating to the zero vector. -/
theorem mean_pooling_matches_spec_witness :
    (∀ m ∈ [(1 : ℚ), 0, 1], m = 0 ∨ m = 1) ∧
    meanPoolRow 2 [[(1 : ℚ), 2], [3, 4], [5, 6]] [1, 0, 1] =
      meanPoolRowSpec 2 [[(1 : ℚ), 2], [3, 4], [5, 6]] [1, 0, 1] ∧
    meanPoolRow 2 [[(9 : ℚ), 9]] [0] = List.replicate 2 0 :=
  ⟨by decide,
   (mean_pooling_matches_spec 2 [[(1 : ℚ), 2], [3, 4], [5, 6]] [1, 0, 1]
      (by decide) (by decide) (by decide)).1,
   (mean_pooling_matches_spec 2 [[(9 : ℚ), 9]] [0]
      (by decide) (by decide) (by decide)).2 (by simp)⟩

/-- Claim C4: mean pooling is padding-neutral — appending positions with
mask value `0` (any token-embedding rows of the right width) to a row
leaves its pooled vector unchanged, so a text embedded in a batch of size
1 pools identically when padded alongside a longer text. -/
theorem mean_pooling_padding_invariant {K : Type} [LinearOrderedField K] (d : Nat)
    (emb extra : List (List K)) (mask : List K) (k : Nat)
    (hlen : mask.length = emb.length)
    (hx : ∀ v ∈ extra, v.length = d)
    (hk : extra.length = k) :
    meanPoolRow d (emb ++ extra) (mask ++ List.replicate k 0) =
      meanPoolRow d emb mask := by
  subst hk
  simp only [meanPoolRow]
  have hzip : List.zipWith scaleVec (mask ++ List.replicate extra.length 0) (emb ++ extra) =
      List.zipWith scaleVec mask emb ++
        List.zipWith scaleVec (List.replicate extra.length 0) extra := by
    rw [List.zipWith_append _ _ _ _ _ hlen]
  have hB : sumVecs d (List.zipWith scaleVec (List.replicate extra.length 0) extra) =
      List.replicate d 0 := by
    refine sumVecs_all_zero _ _ ?_ (by simp) hx
    intro m hm
    exact List.eq_of_mem_replicate hm
  have hsum : sumVecs d (List.zipWith scaleVec (mask ++ List.replicate extra.length 0)
      (emb ++ extra)) = sumVecs d (List.zipWith scaleVec mask emb) := by
    rw [hzip]
    simp only [sumVecs, List.foldr_append]
    rw [show (List.zipWith scaleVec (List.replicate extra.length 0) extra).foldr vecAdd
      (List.replicate d 0) = sumVecs d (List.zipWith scaleVec (List.replicate extra.length 0) extra) from rfl, hB]
  rw [hsum]
  simp [List.sum_append]

/-- Witness for C4: the row `[[1, 2]]` with mask `[1]` pools identically
after two extra zero-mask positions with junk embeddings are appended. -/
theorem mean_pooling_padding_invariant_witness :
    meanPoolRow 2 ([[(1 : ℚ), 2]] ++ [[9, 9], [7, 7]]) ([1] ++ List.replicate 2 0) =
      meanPoolRow 2 [[(1 : ℚ), 2]] [1] :=
  mean_pooling_padding_invariant 2 [[(1 : ℚ), 2]] [[9, 9], [7, 7]] [1] 2 rfl
    (by decide) rfl

/-! ### L2 normalizer -/

theorem sumSq_map_div (v : List ℝ) (n : ℝ) :
    sumSq (v.map (fun x => x / n)) = sumSq v / (n * n) := by
  induction v with
  | nil => simp [sumSq]
  | cons x xs ih =>
    simp only [List.map_cons, sumSq, List.sum_cons] at *
    rw [ih, div_mul_div_comm, div_add_div_same]

/-- Claim C3: `l2_normalize` divides every component by the norm
`sqrt (sum of squares)` clamped to at least `1e-12`; the clamped divisor
is strictly positive (so in this exact model every output component is a
well-defined finite real), and whenever the pre-clamp norm exceeds
`1e-12` the output has Euclidean norm exactly `1`. -/
theorem l2_normalize_spec (v : List ℝ) :
    0 < max (norm2 v) epsNorm ∧
    l2_normalize v = v.map (fun x => x / max (norm2 v) epsNorm) ∧
    (epsNorm < norm2 v → norm2 (l2_normalize v) = 1) := by
  have heps : (0 : ℝ) < epsNorm := by norm_num [epsNorm]
  refine ⟨lt_of_lt_of_le heps (le_max_right _ _), rfl, ?_⟩
  intro h
  have hpos : 0 < norm2 v := lt_trans heps h
  have hmax : max (norm2 v) epsNorm = norm2 v := max_eq_left (le_of_lt h)
  simp only [l2_normalize, hmax]
  rw [norm2, sumSq_map_div, Real.sqrt_div (sumSq_nonneg v),
    Real.sqrt_mul_self (le_of_lt hpos)]
  exact div_self (ne_of_gt hpos)

/-- Witness for C3: the vector `[3, 4]` has norm `5 > 1e-12` and
normalizes to a unit vector. -/
theorem l2_normalize_spec_witness :
    epsNorm < norm2 [(3 : ℝ), 4] ∧ norm2 (l2_normalize [(3 : ℝ), 4]) = 1 := by
  have hs : sumSq [(3 : ℝ), 4] = 25 := by norm_num [sumSq]
  have hn : norm2 [(3 : ℝ), 4] = 5 := by
    rw [norm2, hs, show (25 : ℝ) = 5 ^ 2 by norm_num,
      Real.sqrt_sq (by norm_num : (0 : ℝ) ≤ 5)]
  have h : epsNorm < norm2 [(3 : ℝ), 4] := by
    rw [hn]
    norm_num [epsNorm]
  exact ⟨h, (l2_normalize_spec [(3 : ℝ), 4]).2.2 h⟩

end CandleWasm
